import Mathlib

/-!
Verification development for the objaverse conversion script
(`src/utils/objaverse_json.py`).

The script converts downloaded GLB assets to normalized OBJ meshes and
maintains a JSON manifest of converted assets.  We give a shallow embedding:

* meshes are vertex lists over `ℚ` together with triangle index lists; the
  trimesh operations the script uses (`bounding_box.extents`, `apply_scale`,
  `apply_translation`, `centroid`, `trimesh.util.concatenate`) are modelled
  directly on that representation,
* the external world (`trimesh.load`, mesh export, the file system) is an
  explicit environment/state threaded through the functions,
* the Python functions `load_existing_json`, `find_next_available_id`,
  `convert_glb_to_obj` and `update_json` are translated one to one, with an
  event trace recording the observable actions of the processing loop.

Exact rational arithmetic stands in for IEEE floats; all statements about
coordinates and scales are exact.
-/

namespace Objaverse

/-! ## Mesh model -/

/-- A point in 3-space with exact rational coordinates. -/
abbrev Point : Type := ℚ × ℚ × ℚ

/-- Componentwise addition of points/vectors. -/
def pAdd (p q : Point) : Point := (p.1 + q.1, p.2.1 + q.2.1, p.2.2 + q.2.2)

/-- Scalar multiplication of a point/vector. -/
def pSmul (k : ℚ) (p : Point) : Point := (k * p.1, k * p.2.1, k * p.2.2)

/-- Componentwise negation. -/
def pNeg (p : Point) : Point := (-p.1, -p.2.1, -p.2.2)

/-- Componentwise subtraction. -/
def pSub (p q : Point) : Point := pAdd p (pNeg q)

/-- A triangle mesh: a vertex buffer and a list of triangular faces given by
vertex indices.  This is the data of a `trimesh.Trimesh` as far as the script
uses it. -/
structure Mesh where
  verts : List Point
  faces : List (Nat × Nat × Nat)
deriving DecidableEq, Repr

/-- Binary maximum on `ℚ`, written with an `if` so that the kernel can
evaluate it on concrete inputs; equal to `max` (see `qmax_def`). -/
def qmax (a b : ℚ) : ℚ := if a ≤ b then b else a

/-- Binary minimum on `ℚ`; equal to `min` (see `qmin_def`). -/
def qmin (a b : ℚ) : ℚ := if a ≤ b then a else b

/-- Maximum of a list of rationals (`0` for the empty list; the script never
takes the maximum of an empty extent array). -/
def listMax : List ℚ → ℚ
  | [] => 0
  | x :: xs => xs.foldl qmax x

/-- Minimum of a list of rationals (`0` for the empty list). -/
def listMin : List ℚ → ℚ
  | [] => 0
  | x :: xs => xs.foldl qmin x

/-- The x coordinates of a mesh's vertices. -/
def coordsX (m : Mesh) : List ℚ := m.verts.map (fun p => p.1)

/-- The y coordinates of a mesh's vertices. -/
def coordsY (m : Mesh) : List ℚ := m.verts.map (fun p => p.2.1)

/-- The z coordinates of a mesh's vertices. -/
def coordsZ (m : Mesh) : List ℚ := m.verts.map (fun p => p.2.2)

/-- Extent (max minus min) of a coordinate list. -/
def extentAlong (l : List ℚ) : ℚ := listMax l - listMin l

/-- `bounding_box.extents`: per-axis size of the smallest axis-aligned box
containing all vertices. -/
def extents (m : Mesh) : ℚ × ℚ × ℚ :=
  (extentAlong (coordsX m), extentAlong (coordsY m), extentAlong (coordsZ m))

/-- `max(merged_mesh.bounding_box.extents)`: the largest bounding-box extent. -/
def maxExtent (m : Mesh) : ℚ :=
  qmax (qmax (extents m).1 (extents m).2.1) (extents m).2.2

/-- `mesh.apply_scale(k)`: uniform scaling of every vertex coordinate. -/
def apply_scale (k : ℚ) (m : Mesh) : Mesh :=
  { verts := m.verts.map (pSmul k), faces := m.faces }

/-- `mesh.apply_translation(t)`: translate every vertex by `t`. -/
def apply_translation (t : Point) (m : Mesh) : Mesh :=
  { verts := m.verts.map (fun p => pAdd p t), faces := m.faces }

/-- Vertex lookup by index (out-of-range indices read as the origin; the
library would reject such a face, and no statement below depends on them). -/
def vertAt (m : Mesh) (i : Nat) : Point := m.verts.getD i (0, 0, 0)

/-- Center of a triangular face: the mean of its three vertices
(`trimesh` `triangles_center`). -/
def triCenter (m : Mesh) (f : Nat × Nat × Nat) : Point :=
  pSmul (1 / 3) (pAdd (pAdd (vertAt m f.1) (vertAt m f.2.1)) (vertAt m f.2.2))

/-- Cross product of two vectors. -/
def cross (u v : Point) : Point :=
  (u.2.1 * v.2.2 - u.2.2 * v.2.1,
   u.2.2 * v.1 - u.1 * v.2.2,
   u.1 * v.2.1 - u.2.1 * v.1)

/-- Squared euclidean norm. -/
def normSq (p : Point) : ℚ := p.1 ^ 2 + p.2.1 ^ 2 + p.2.2 ^ 2

/-- Squared area weight of a face: the squared norm of the edge cross product
(this is `(2 * area)^2`).  A face has zero area iff this is zero, which is the
only fact about the weights the development relies on. -/
def faceAreaSq (m : Mesh) (f : Nat × Nat × Nat) : ℚ :=
  normSq (cross (pSub (vertAt m f.2.1) (vertAt m f.1))
                (pSub (vertAt m f.2.2) (vertAt m f.1)))

/-- Sum of a list of points. -/
def sumP (l : List Point) : Point := l.foldl pAdd (0, 0, 0)

/-- Models `trimesh.Trimesh.centroid`: the average of the triangle centers
weighted by triangle area; when the total weight is zero (all faces
degenerate) the library falls back to the unweighted mean of the triangle
centers.  True areas are irrational, so the weighted branch uses the squared
areas as weights; only the degenerate branch and affine equivariance of the
weighted branch matter to any statement below.  A mesh with no faces at all
is mapped to the origin (the library produces NaN there; no claim touches
that case). -/
def centroid (m : Mesh) : Point :=
  let weights := m.faces.map (faceAreaSq m)
  if weights.sum = 0 then
    if m.faces.isEmpty then (0, 0, 0)
    else pSmul (1 / (m.faces.length : ℚ)) (sumP (m.faces.map (triCenter m)))
  else
    pSmul (1 / weights.sum)
      (sumP (m.faces.map (fun f => pSmul (faceAreaSq m f) (triCenter m f))))

/-- `trimesh.util.concatenate` of two meshes: vertex buffers appended, the
second mesh's face indices offset by the first vertex count. -/
def concatTwo (a b : Mesh) : Mesh :=
  { verts := a.verts ++ b.verts
    faces := a.faces ++ b.faces.map
      (fun f => (f.1 + a.verts.length, f.2.1 + a.verts.length, f.2.2 + a.verts.length)) }

/-- `trimesh.util.concatenate(scene.dump())`: fold all geometries into one
mesh by concatenation. -/
def concatMeshes (ms : List Mesh) : Mesh := ms.foldl concatTwo ⟨[], []⟩

/-! ## The external world: `trimesh.load` and export as an environment -/

/-- One geometry inside a loaded scene: either a triangle mesh
(`trimesh.Trimesh`) or some other geometry kind (point cloud, curve, ...). -/
inductive Geom where
  | tri (m : Mesh)
  | nonMesh
deriving DecidableEq, Repr

/-- Whether a scene geometry is a `trimesh.Trimesh`. -/
def Geom.isTri : Geom → Bool
  | .tri _ => true
  | .nonMesh => false

/-- The meshes of a scene's geometries. -/
def sceneMeshes (gs : List Geom) : List Mesh :=
  gs.filterMap (fun g => match g with | .tri m => some m | .nonMesh => none)

/-- Result of `trimesh.load` on a path: an exception, a `trimesh.Scene`
(its geometry values in iteration order, already in scene coordinates), or a
single mesh. -/
inductive LoadResult where
  | failure
  | scene (gs : List Geom)
  | single (m : Mesh)
deriving DecidableEq, Repr

/-- The external mesh library, as the script observes it: what `trimesh.load`
returns for each input path, and whether `mesh.export` succeeds at each output
path. -/
structure Env where
  load : String → LoadResult
  exportOk : String → Bool

/-- Observable outcome of one `convert_glb_to_obj` call:

* `loadFail` — the Python function returned `None` (load raised, or a scene
  contained a non-mesh geometry),
* `exportError` — `merged_mesh.export` raised; the exception is *not* caught
  anywhere in the script, `written` is the mesh it was trying to write,
* `success` — the returned `norm_scale` together with the exported mesh. -/
inductive ConvOutcome where
  | loadFail
  | exportError (written : Mesh)
  | success (scale : ℚ) (written : Mesh)
deriving DecidableEq, Repr

/-- The normalization core of `convert_glb_to_obj`: compute `norm_scale` as
the largest bounding-box extent, rescale by `1 / norm_scale` unless it is
zero, then translate by minus the centroid (of the already-rescaled mesh).
Returns the pre-rescale `norm_scale` and the mesh handed to `export`. -/
def normalizeMesh (m : Mesh) : ℚ × Mesh :=
  let norm_scale := maxExtent m
  let m1 := if 0 < norm_scale then apply_scale (1 / norm_scale) m else m
  (norm_scale, apply_translation (pNeg (centroid m1)) m1)

/-- Normalize a merged mesh and export it, reporting the outcome. -/
def convertMerged (env : Env) (obj_path : String) (m : Mesh) : ConvOutcome :=
  let r := normalizeMesh m
  if env.exportOk obj_path then .success r.1 r.2 else .exportError r.2

/-- `convert_glb_to_obj(glb_path, obj_path)`.  Only the `trimesh.load` call
sits inside a `try`: a load exception returns `None`, as does a scene with a
non-mesh geometry; everything after that point runs unprotected, so an export
exception escapes the function. -/
def convert_glb_to_obj (env : Env) (glb_path obj_path : String) : ConvOutcome :=
  match env.load glb_path with
  | .failure => .loadFail
  | .scene gs =>
      if gs.all Geom.isTri then
        convertMerged env obj_path (concatMeshes (sceneMeshes gs))
      else .loadFail
  | .single m => convertMerged env obj_path m

/-! ## Manifest records and `find_next_available_id` -/

/-- One manifest entry, with the JSON field names used by the script
(`obj_id`, `objaverse_id`, `github_id`, `norm_scale`). -/
structure Record where
  obj_id : Nat
  objaverse_id : String
  github_id : String
  norm_scale : ℚ
deriving DecidableEq, Repr

/-- The `while new_id in used_ids` search, made total with explicit fuel:
starting from `n`, return the first number not in `used` reachable within
`fuel` increments (returning the current candidate when fuel runs out; the
caller supplies enough fuel for that never to matter). -/
def firstFree (used : List Nat) : Nat → Nat → Nat
  | 0, n => n
  | fuel + 1, n => if n ∈ used then firstFree used fuel (n + 1) else n

/-- `find_next_available_id(existing_data)`: scan upward from 0 for the first
integer not used as an `obj_id`.  `existing_data.length + 1` steps always
suffice, since a list of `k` ids cannot cover all of `0..k`. -/
def find_next_available_id (existing_data : List Record) : Nat :=
  firstFree (existing_data.map Record.obj_id) (existing_data.length + 1) 0

/-! ## Path manipulation (`os.path` and `str.split`) -/

/-- Python `s.split(sep)` with an explicit one-character separator: splits at
every occurrence, keeping empty segments; the empty string yields `[""]`. -/
def splitChars (sep : Char) : List Char → List (List Char)
  | [] => [[]]
  | c :: cs =>
      let r := splitChars sep cs
      if c = sep then [] :: r
      else
        match r with
        | g :: gs => (c :: g) :: gs
        | [] => [[c]]

/-- Python negative indexing `l[-2]`: `none` models the `IndexError` raised
when the list has fewer than two elements. -/
def pyIndexNeg2 {α : Type} (l : List α) : Option α :=
  if h : 2 ≤ l.length then some (l.get ⟨l.length - 2, by omega⟩) else none

/-- `path.split('/')[-2]`: the second-to-last slash-separated segment, the
"github id" grouping key. -/
def pyGithubId (path : String) : Option String :=
  (pyIndexNeg2 (splitChars '/' path.toList)).map (fun g => String.mk g)

/-- Two-argument `posixpath.join` for the cases the script can reach: a second
argument starting with a slash replaces the first; otherwise a slash is
inserted unless the first part is empty or already ends with one. -/
def pyJoin2 (a b : String) : String :=
  if b.toList.head? = some '/' then b
  else if a = "" ∨ a.toList.getLast? = some '/' then a ++ b
  else a ++ "/" ++ b

/-- `os.path.join(objaverse_base_path, "objs", github_id, objaverse_id,
'model_scaled.obj')`. -/
def objFilePath (base gid oid : String) : String :=
  pyJoin2 (pyJoin2 (pyJoin2 (pyJoin2 base "objs") gid) oid) "model_scaled.obj"

/-- `os.path.dirname`: everything up to the last slash, with trailing slashes
then stripped unless the head consists only of slashes; the empty string if
there is no slash. -/
def pyDirname (s : String) : String :=
  let cs := s.toList
  let head := (cs.reverse.dropWhile (fun c => c ≠ '/')).reverse
  if head.all (fun c => c = '/') then String.mk head
  else String.mk (head.reverse.dropWhile (fun c => c = '/')).reverse

/-! ## The processing loop `update_json` -/

/-- The file-system state the script mutates: the manifest store (at the
record level of abstraction — `none` is a missing file; the JSON round-trip
for well-formed record lists is not re-modelled here, see `load_existing_json`
below for the string level) and the set of directories handed to
`os.makedirs` (ancestor directories implicitly created are not tracked). -/
structure FS where
  manifest : Option (List Record)
  dirs : List String
deriving DecidableEq, Repr

/-- `save_to_json(file_path, data)`: `os.makedirs(dirname(file_path))`
followed by a full-replace write of the record list. -/
def saveRecords (file_path : String) (data : List Record) (fs : FS) : FS :=
  { manifest := some data, dirs := fs.dirs ++ [pyDirname file_path] }

/-- `os.makedirs(d, exist_ok=True)` on the model state. -/
def mkdirs (d : String) (fs : FS) : FS :=
  { fs with dirs := fs.dirs ++ [d] }

/-- Observable events of one run of the loop, stamped with the loop index
`enumerate` assigns to the item that produced them. -/
inductive Event where
  | skipped (idx : Nat) (oid : String)
  | failed (idx : Nat) (oid path : String)
  | converted (idx : Nat) (oid : String) (scale : ℚ)
  | checkpoint (idx : Nat) (records : List Record)
  | finalSave (records : List Record)
deriving DecidableEq, Repr

/-- Result of a run: normal completion (the in-memory record list, the
file-system state, the event trace) or an uncaught exception escaping the
loop (the state and trace at that moment; locals are lost). -/
inductive RunResult where
  | ok (records : List Record) (fs : FS) (trace : List Event)
  | exc (fs : FS) (trace : List Event)
deriving DecidableEq, Repr

/-- Prepend events to a result's trace. -/
def RunResult.withEvents (es : List Event) : RunResult → RunResult
  | .ok records fs trace => .ok records fs (es ++ trace)
  | .exc fs trace => .exc fs (es ++ trace)

/-- The body of `update_json`'s `for idx, (objaverse_id, path) in enumerate(...)`
loop, translated clause by clause:

* already-known ids are skipped (`existing_map` is the snapshot `known`,
  never extended during the run, exactly as in the source),
* for a new id: derive `github_id` (an `IndexError` on a path with fewer than
  two segments escapes as an exception), `os.makedirs` the output directory,
  call `convert_glb_to_obj`,
* `None` (load failure) is reported and the loop continues,
* an export exception propagates: the run dies on the spot,
* on success a record with the next free id is appended, and if the loop
  index is a multiple of 250 the manifest is saved (the checkpoint sits
  inside the success branch in the source). -/
def updateLoop (env : Env) (base file : String) (known : List String) :
    List (String × String) → Nat → List Record → FS → RunResult
  | [], _, recs, fs =>
      .ok recs (saveRecords file recs fs) [.finalSave recs]
  | (oid, path) :: rest, idx, recs, fs =>
      if oid ∈ known then
        (updateLoop env base file known rest (idx + 1) recs fs).withEvents
          [.skipped idx oid]
      else
        match pyGithubId path with
        | none => .exc fs []
        | some gid =>
            let obj_path := objFilePath base gid oid
            let fs1 := mkdirs (pyDirname obj_path) fs
            match convert_glb_to_obj env path obj_path with
            | .loadFail =>
                (updateLoop env base file known rest (idx + 1) recs fs1).withEvents
                  [.failed idx oid path]
            | .exportError _ => .exc fs1 []
            | .success s _ =>
                let r : Record := ⟨find_next_available_id recs, oid, gid, s⟩
                let recs1 := recs ++ [r]
                if idx % 250 = 0 then
                  (updateLoop env base file known rest (idx + 1) recs1
                      (saveRecords file recs1 fs1)).withEvents
                    [.converted idx oid s, .checkpoint idx recs1]
                else
                  (updateLoop env base file known rest (idx + 1) recs1 fs1).withEvents
                    [.converted idx oid s]

/-- `update_json(objaverse_dict, objaverse_base_path, file_path)`: load the
existing records (an absent manifest reads as the empty list), snapshot the
known `objaverse_id`s, run the loop from index 0, and (inside `updateLoop`'s
base case) perform the unconditional final save.  The dict is modelled as the
ordered list of its `(objaverse_id, path)` items. -/
def update_json (env : Env) (objaverse_dict : List (String × String))
    (base file : String) (fs : FS) : RunResult :=
  let existing_data := fs.manifest.getD []
  updateLoop env base file (existing_data.map Record.objaverse_id)
    objaverse_dict 0 existing_data fs

/-! ## `load_existing_json`: the string level

`update_json` above works at the record level of the store; the claims about
`load_existing_json` itself are about raw file contents, so here `json.load`
is modelled as a parser over the file's character data.  (The nonstandard
`NaN`/`Infinity` literals Python accepts, and surrogate-pair decoding of
`\u` escapes, are not modelled; no statement depends on them.) -/

/-- A parsed JSON value; numbers are exact rationals. -/
inductive JVal where
  | null
  | bool (b : Bool)
  | num (q : ℚ)
  | str (s : String)
  | arr (xs : List JVal)
  | obj (kvs : List (String × JVal))

/-- JSON whitespace. -/
def isJsonWs (c : Char) : Bool := c = ' ' || c = '\t' || c = '\n' || c = '\r'

/-- Drop leading JSON whitespace. -/
def skipWs (cs : List Char) : List Char := cs.dropWhile isJsonWs

/-- Value of a hex digit, if it is one. -/
def hexVal (c : Char) : Option Nat :=
  if c.isDigit then some (c.toNat - 48)
  else if 'a' ≤ c ∧ c ≤ 'f' then some (c.toNat - 87)
  else if 'A' ≤ c ∧ c ≤ 'F' then some (c.toNat - 55)
  else none

/-- The single-character string escapes. -/
def escChar : Char → Option Char
  | '"' => some '"'
  | '\\' => some '\\'
  | '/' => some '/'
  | 'b' => some (Char.ofNat 8)
  | 'f' => some (Char.ofNat 12)
  | 'n' => some '\n'
  | 'r' => some '\r'
  | 't' => some '\t'
  | _ => none

/-- Parse the body of a JSON string after the opening quote, returning the
decoded characters and the input after the closing quote. -/
def parseStrBody : List Char → Option (List Char × List Char)
  | [] => none
  | c :: cs =>
      if c = '"' then some ([], cs)
      else if c = '\\' then
        match cs with
        | 'u' :: a :: b :: c2 :: d :: cs3 =>
            match hexVal a, hexVal b, hexVal c2, hexVal d with
            | some va, some vb, some vc, some vd =>
                match parseStrBody cs3 with
                | some (s, r) =>
                    some (Char.ofNat (va * 4096 + vb * 256 + vc * 16 + vd) :: s, r)
                | none => none
            | _, _, _, _ => none
        | e :: cs2 =>
            match escChar e with
            | some ec =>
                match parseStrBody cs2 with
                | some (s, r) => some (ec :: s, r)
                | none => none
            | none => none
        | [] => none
      else if c.toNat < 32 then none
      else
        match parseStrBody cs with
        | some (s, r) => some (c :: s, r)
        | none => none

/-- Leading run of decimal digits and the rest. -/
def digitsOf (cs : List Char) : List Char × List Char :=
  (cs.takeWhile Char.isDigit, cs.dropWhile Char.isDigit)

/-- Numeric value of a digit run. -/
def natOfDigits (ds : List Char) : Nat :=
  ds.foldl (fun acc c => acc * 10 + (c.toNat - 48)) 0

/-- Parse a JSON number (optional sign, integer part without leading zeros,
optional fraction, optional exponent) into an exact rational. -/
def parseNum (cs : List Char) : Option (JVal × List Char) :=
  let signSplit : Bool × List Char :=
    match cs with
    | '-' :: r => (true, r)
    | _ => (false, cs)
  match digitsOf signSplit.2 with
  | ([], _) => none
  | (d :: ds, cs2) =>
      if d = '0' ∧ ds ≠ [] then none
      else
        let ip : ℚ := (natOfDigits (d :: ds) : ℚ)
        let fracRes : Option (ℚ × List Char) :=
          match cs2 with
          | '.' :: r =>
              match digitsOf r with
              | ([], _) => none
              | (fds, cs3) =>
                  some (ip + (natOfDigits fds : ℚ) / ((10 : ℚ) ^ fds.length), cs3)
          | _ => some (ip, cs2)
        match fracRes with
        | none => none
        | some (mant, cs3) =>
            let expRes : Option (Int × List Char) :=
              match cs3 with
              | 'e' :: r | 'E' :: r =>
                  let esplit : Int × List Char :=
                    match r with
                    | '+' :: rr => (1, rr)
                    | '-' :: rr => (-1, rr)
                    | _ => (1, r)
                  match digitsOf esplit.2 with
                  | ([], _) => none
                  | (eds, cs4) => some (esplit.1 * (natOfDigits eds : Int), cs4)
              | _ => some (0, cs3)
            match expRes with
            | none => none
            | some (e, cs4) =>
                some (.num ((if signSplit.1 then -mant else mant) * (10 : ℚ) ^ e), cs4)

mutual

/-- Parse one JSON value (fuel-indexed recursion; the top level supplies
fuel proportional to the input length, which always suffices). -/
def parseVal : Nat → List Char → Option (JVal × List Char)
  | 0, _ => none
  | fuel + 1, cs =>
      match skipWs cs with
      | 'n' :: 'u' :: 'l' :: 'l' :: rest => some (.null, rest)
      | 't' :: 'r' :: 'u' :: 'e' :: rest => some (.bool true, rest)
      | 'f' :: 'a' :: 'l' :: 's' :: 'e' :: rest => some (.bool false, rest)
      | '"' :: rest =>
          match parseStrBody rest with
          | some (s, r) => some (.str (String.mk s), r)
          | none => none
      | '[' :: rest =>
          match skipWs rest with
          | ']' :: r => some (.arr [], r)
          | r =>
              match parseElems fuel r with
              | some (xs, r2) => some (.arr xs, r2)
              | none => none
      | '{' :: rest =>
          match skipWs rest with
          | '}' :: r => some (.obj [], r)
          | r =>
              match parseMembers fuel r with
              | some (kvs, r2) => some (.obj kvs, r2)
              | none => none
      | r => parseNum r

/-- Parse the comma-separated elements of a non-empty array, including the
closing bracket. -/
def parseElems : Nat → List Char → Option (List JVal × List Char)
  | 0, _ => none
  | fuel + 1, cs =>
      match parseVal fuel cs with
      | none => none
      | some (v, r) =>
          match skipWs r with
          | ',' :: r2 =>
              match parseElems fuel r2 with
              | some (xs, r3) => some (v :: xs, r3)
              | none => none
          | ']' :: r2 => some ([v], r2)
          | _ => none

/-- Parse the members of a non-empty object, including the closing brace. -/
def parseMembers : Nat → List Char → Option (List (String × JVal) × List Char)
  | 0, _ => none
  | fuel + 1, cs =>
      match skipWs cs with
      | '"' :: rest =>
          match parseStrBody rest with
          | none => none
          | some (k, r) =>
              match skipWs r with
              | ':' :: r2 =>
                  match parseVal fuel r2 with
                  | none => none
                  | some (v, r3) =>
                      match skipWs r3 with
                      | ',' :: r4 =>
                          match parseMembers fuel r4 with
                          | some (kvs, r5) => some ((String.mk k, v) :: kvs, r5)
                          | none => none
                      | '}' :: r4 => some ([(String.mk k, v)], r4)
                      | _ => none
              | _ => none
      | _ => none

end

/-- `json.load` on a file's character contents: one JSON value, possibly
surrounded by whitespace, and nothing else.  `none` models the
`JSONDecodeError` raised on anything that does not parse — including the
empty string, which is not a JSON value. -/
def json_loads (s : String) : Option JVal :=
  match parseVal (2 * s.toList.length + 2) s.toList with
  | some (v, r) => if (skipWs r).isEmpty then some v else none
  | none => none

/-- The manifest-load failure: the file is present but `json.load` raises. -/
inductive ManifestError where
  | corrupt
deriving DecidableEq, Repr

/-- `load_existing_json(file_path)` over a file system mapping paths to their
contents (`none` = file absent): if `os.path.exists` fails, return `[]`
without touching the file; otherwise the result is whatever `json.load`
yields, and a parse failure propagates as an uncaught exception
(`CorruptManifest`). -/
def load_existing_json (files : String → Option String) (file_path : String) :
    Except ManifestError JVal :=
  match files file_path with
  | some s =>
      match json_loads s with
      | some v => .ok v
      | none => .error .corrupt
  | none => .ok (.arr [])

/-! ## Bounding-box arithmetic -/

theorem qmax_def : qmax = (max : ℚ → ℚ → ℚ) := by
  funext a b
  rcases le_total a b with h | h
  · rw [qmax, if_pos h, max_eq_right h]
  · rcases eq_or_lt_of_le h with rfl | hlt
    · simp [qmax]
    · rw [qmax, if_neg (not_le_of_lt hlt), max_eq_left h]

theorem qmin_def : qmin = (min : ℚ → ℚ → ℚ) := by
  funext a b
  rcases le_total a b with h | h
  · rw [qmin, if_pos h, min_eq_left h]
  · rcases eq_or_lt_of_le h with rfl | hlt
    · simp [qmin]
    · rw [qmin, if_neg (not_le_of_lt hlt), min_eq_right h]

theorem qmax_add (a b t : ℚ) : max (a + t) (b + t) = max a b + t := by
  rcases le_total a b with h | h
  · rw [max_eq_right h, max_eq_right (by linarith)]
  · rw [max_eq_left h, max_eq_left (by linarith)]

theorem qmin_add (a b t : ℚ) : min (a + t) (b + t) = min a b + t := by
  rcases le_total a b with h | h
  · rw [min_eq_left h, min_eq_left (by linarith)]
  · rw [min_eq_right h, min_eq_right (by linarith)]

theorem foldl_max_map_add (t : ℚ) :
    ∀ (l : List ℚ) (a : ℚ),
      (l.map (fun x => x + t)).foldl max (a + t) = l.foldl max a + t := by
  intro l
  induction l with
  | nil => intro a; rfl
  | cons x xs ih => intro a; simpa [qmax_add] using ih (max a x)

theorem foldl_min_map_add (t : ℚ) :
    ∀ (l : List ℚ) (a : ℚ),
      (l.map (fun x => x + t)).foldl min (a + t) = l.foldl min a + t := by
  intro l
  induction l with
  | nil => intro a; rfl
  | cons x xs ih => intro a; simpa [qmin_add] using ih (min a x)

theorem foldl_max_map_mul (k : ℚ) (hk : 0 ≤ k) :
    ∀ (l : List ℚ) (a : ℚ),
      (l.map (fun x => k * x)).foldl max (k * a) = k * l.foldl max a := by
  intro l
  induction l with
  | nil => intro a; rfl
  | cons x xs ih =>
      intro a
      have : max (k * a) (k * x) = k * max a x := (mul_max_of_nonneg a x hk).symm
      simpa [this] using ih (max a x)

theorem foldl_min_map_mul (k : ℚ) (hk : 0 ≤ k) :
    ∀ (l : List ℚ) (a : ℚ),
      (l.map (fun x => k * x)).foldl min (k * a) = k * l.foldl min a := by
  intro l
  induction l with
  | nil => intro a; rfl
  | cons x xs ih =>
      intro a
      have : min (k * a) (k * x) = k * min a x := (mul_min_of_nonneg a x hk).symm
      simpa [this] using ih (min a x)

theorem extentAlong_map_add (t : ℚ) (l : List ℚ) :
    extentAlong (l.map (fun x => x + t)) = extentAlong l := by
  cases l with
  | nil => rfl
  | cons x xs =>
      simp only [extentAlong, listMax, listMin, List.map_cons, qmax_def, qmin_def]
      rw [foldl_max_map_add, foldl_min_map_add]
      ring

theorem extentAlong_map_mul (k : ℚ) (hk : 0 ≤ k) (l : List ℚ) :
    extentAlong (l.map (fun x => k * x)) = k * extentAlong l := by
  cases l with
  | nil => simp [extentAlong, listMax, listMin]
  | cons x xs =>
      simp only [extentAlong, listMax, listMin, List.map_cons, qmax_def, qmin_def]
      rw [foldl_max_map_mul k hk, foldl_min_map_mul k hk]
      ring

theorem init_le_foldl_max : ∀ (l : List ℚ) (a : ℚ), a ≤ l.foldl max a := by
  intro l
  induction l with
  | nil => intro a; exact le_refl a
  | cons x xs ih => intro a; exact le_trans (le_max_left a x) (ih (max a x))

theorem foldl_min_le_init : ∀ (l : List ℚ) (a : ℚ), l.foldl min a ≤ a := by
  intro l
  induction l with
  | nil => intro a; exact le_refl a
  | cons x xs ih => intro a; exact le_trans (ih (min a x)) (min_le_left a x)

theorem extentAlong_nonneg (l : List ℚ) : 0 ≤ extentAlong l := by
  cases l with
  | nil => simp [extentAlong, listMax, listMin]
  | cons x xs =>
      have h1 := init_le_foldl_max xs x
      have h2 := foldl_min_le_init xs x
      simp only [extentAlong, listMax, listMin, qmax_def, qmin_def]
      linarith

theorem coordsX_apply_scale (k : ℚ) (m : Mesh) :
    coordsX (apply_scale k m) = (coordsX m).map (fun x => k * x) := by
  simp only [coordsX, apply_scale, List.map_map]
  rfl

theorem coordsY_apply_scale (k : ℚ) (m : Mesh) :
    coordsY (apply_scale k m) = (coordsY m).map (fun x => k * x) := by
  simp only [coordsY, apply_scale, List.map_map]
  rfl

theorem coordsZ_apply_scale (k : ℚ) (m : Mesh) :
    coordsZ (apply_scale k m) = (coordsZ m).map (fun x => k * x) := by
  simp only [coordsZ, apply_scale, List.map_map]
  rfl

theorem coordsX_apply_translation (t : Point) (m : Mesh) :
    coordsX (apply_translation t m) = (coordsX m).map (fun x => x + t.1) := by
  simp only [coordsX, apply_translation, List.map_map]
  rfl

theorem coordsY_apply_translation (t : Point) (m : Mesh) :
    coordsY (apply_translation t m) = (coordsY m).map (fun x => x + t.2.1) := by
  simp only [coordsY, apply_translation, List.map_map]
  rfl

theorem coordsZ_apply_translation (t : Point) (m : Mesh) :
    coordsZ (apply_translation t m) = (coordsZ m).map (fun x => x + t.2.2) := by
  simp only [coordsZ, apply_translation, List.map_map]
  rfl

theorem maxExtent_apply_scale (k : ℚ) (hk : 0 ≤ k) (m : Mesh) :
    maxExtent (apply_scale k m) = k * maxExtent m := by
  simp only [maxExtent, extents, qmax_def, coordsX_apply_scale, coordsY_apply_scale,
    coordsZ_apply_scale, extentAlong_map_mul k hk]
  rw [← mul_max_of_nonneg _ _ hk, ← mul_max_of_nonneg _ _ hk]

theorem maxExtent_apply_translation (t : Point) (m : Mesh) :
    maxExtent (apply_translation t m) = maxExtent m := by
  simp only [maxExtent, extents, qmax_def, coordsX_apply_translation,
    coordsY_apply_translation, coordsZ_apply_translation, extentAlong_map_add]

theorem maxExtent_nonneg (m : Mesh) : 0 ≤ maxExtent m := by
  simp only [maxExtent, qmax_def, extents]
  exact le_trans (extentAlong_nonneg (coordsZ m)) (le_max_right _ _)

theorem normalizeMesh_fst (m : Mesh) : (normalizeMesh m).1 = maxExtent m := rfl

theorem normalizeMesh_maxExtent_one (m : Mesh) (h : 0 < maxExtent m) :
    maxExtent (normalizeMesh m).2 = 1 := by
  have hk : (0 : ℚ) ≤ 1 / maxExtent m := by positivity
  simp only [normalizeMesh, if_pos h]
  rw [maxExtent_apply_translation, maxExtent_apply_scale _ hk]
  field_simp

theorem normalizeMesh_degenerate (m : Mesh) (h : maxExtent m = 0) :
    normalizeMesh m = (0, apply_translation (pNeg (centroid m)) m) := by
  simp [normalizeMesh, h]

/-! ## Concrete fixtures -/

/-- A non-degenerate triangle with bounding box `(2, 1, 0)`. -/
def triMesh : Mesh := ⟨[(0, 0, 0), (2, 0, 0), (0, 1, 0)], [(0, 1, 2)]⟩

/-- A degenerate mesh: one triangle with all vertices at `(1, 2, 3)`. -/
def degMesh : Mesh := ⟨[(1, 2, 3), (1, 2, 3), (1, 2, 3)], [(0, 1, 2)]⟩

/-- Environment where every load yields `triMesh` and every export works. -/
def triEnv : Env := ⟨fun _ => .single triMesh, fun _ => true⟩

/-- Environment where every load yields `degMesh` and every export works. -/
def degEnv : Env := ⟨fun _ => .single degMesh, fun _ => true⟩

/-- Environment where every load succeeds but every export raises. -/
def exportFailEnv : Env := ⟨fun _ => .single triMesh, fun _ => false⟩

/-- Environment where every load raises. -/
def loadFailEnv : Env := ⟨fun _ => .failure, fun _ => true⟩

/-- The initial file-system state: no manifest, no directories. -/
def emptyFS : FS := ⟨none, []⟩

/-! ## C9: unit-scale invariant -/

/-- C9 (confirmed): for a loadable input whose merged mesh is non-degenerate
(maximum bounding-box extent strictly positive) and whose export succeeds,
`convert_glb_to_obj` returns exactly the pre-rescale maximum extent, and the
exported mesh has maximum bounding-box extent exactly 1 (exact rational
arithmetic stands in for floats, so no tolerance is needed). -/
theorem unit_scale_invariant (env : Env) (glb obj : String) (m : Mesh)
    (hload : env.load glb = .single m ∨
      (∃ gs, env.load glb = .scene gs ∧ gs.all Geom.isTri = true ∧
        concatMeshes (sceneMeshes gs) = m))
    (hexp : env.exportOk obj = true) (hpos : 0 < maxExtent m) :
    convert_glb_to_obj env glb obj =
      .success (maxExtent m) (normalizeMesh m).2 ∧
    maxExtent (normalizeMesh m).2 = 1 := by
  constructor
  · rcases hload with h | ⟨gs, h, hall, hm⟩
    · simp [convert_glb_to_obj, h, convertMerged, hexp, ← normalizeMesh_fst]
    · simp [convert_glb_to_obj, h, hall, hm, convertMerged, hexp, ← normalizeMesh_fst]
  · exact normalizeMesh_maxExtent_one m hpos

/-- Witness for `unit_scale_invariant` at the concrete fixture `triMesh`. -/
theorem unit_scale_invariant_witness :
    (0 : ℚ) < maxExtent triMesh ∧
    convert_glb_to_obj triEnv "a.glb" "out.obj" =
      .success (maxExtent triMesh) (normalizeMesh triMesh).2 ∧
    maxExtent (normalizeMesh triMesh).2 = 1 :=
  ⟨by with_unfolding_all decide,
   unit_scale_invariant triEnv "a.glb" "out.obj" triMesh (Or.inl rfl) rfl
     (by with_unfolding_all decide)⟩

/-! ## C8: degenerate meshes -/

/-- C8 (counterexample): the claim says a zero-extent mesh is "exported with
its vertex coordinates unchanged from the input".  For `degMesh` (all
vertices at `(1,2,3)`), the conversion reports scale 0 and skips rescaling,
but still translates by minus the centroid: every exported vertex is the
origin, not `(1,2,3)`. -/
theorem degenerate_coords_changed_ce :
    convert_glb_to_obj degEnv "a.glb" "out.obj" =
      .success 0 ⟨[(0, 0, 0), (0, 0, 0), (0, 0, 0)], [(0, 1, 2)]⟩ ∧
    (⟨[(0, 0, 0), (0, 0, 0), (0, 0, 0)], [(0, 1, 2)]⟩ : Mesh).verts ≠ degMesh.verts := by
  constructor
  · with_unfolding_all decide
  · with_unfolding_all decide

/-- C8 (amended): for a loadable single mesh with zero maximum bounding-box
extent and a succeeding export, `convert_glb_to_obj` reports
`normalization_scale = 0` and skips the rescale step, but the exported mesh
is the input translated by minus its centroid — coordinates are unchanged
only up to that recentering translation. -/
theorem degenerate_mesh_translated (env : Env) (glb obj : String) (m : Mesh)
    (hload : env.load glb = .single m) (hexp : env.exportOk obj = true)
    (hdeg : maxExtent m = 0) :
    convert_glb_to_obj env glb obj =
      .success 0 (apply_translation (pNeg (centroid m)) m) := by
  simp [convert_glb_to_obj, hload, convertMerged, hexp, normalizeMesh, hdeg]

/-- Witness for `degenerate_mesh_translated` at the fixture `degMesh`. -/
theorem degenerate_mesh_translated_witness :
    maxExtent degMesh = 0 ∧
    convert_glb_to_obj degEnv "a.glb" "out.obj" =
      .success 0 (apply_translation (pNeg (centroid degMesh)) degMesh) :=
  ⟨by with_unfolding_all decide,
   degenerate_mesh_translated degEnv "a.glb" "out.obj" degMesh rfl rfl
     (by with_unfolding_all decide)⟩

/-! ## C4: smallest unused id -/

theorem firstFree_spec (used : List Nat) :
    ∀ (fuel n : Nat), (∃ j, j < fuel ∧ (n + j) ∉ used) →
      firstFree used fuel n ∉ used ∧ n ≤ firstFree used fuel n ∧
      ∀ m, n ≤ m → m < firstFree used fuel n → m ∈ used := by
  intro fuel
  induction fuel with
  | zero =>
      rintro n ⟨j, hj, _⟩
      exact absurd hj (Nat.not_lt_zero j)
  | succ f ih =>
      rintro n ⟨j, hj, hfree⟩
      by_cases h : n ∈ used
      · have hj0 : j ≠ 0 := by
          rintro rfl
          simp only [Nat.add_zero] at hfree
          exact hfree h
        have hrec := ih (n + 1)
          ⟨j - 1, by omega, by
            have : n + 1 + (j - 1) = n + j := by omega
            rw [this]
            exact hfree⟩
        rw [firstFree, if_pos h]
        refine ⟨hrec.1, by omega, ?_⟩
        intro m hm1 hm2
        rcases eq_or_lt_of_le hm1 with rfl | h2
        · exact h
        · exact hrec.2.2 m (by omega) hm2
      · rw [firstFree, if_neg h]
        exact ⟨h, le_refl n, fun m h1 h2 => absurd (lt_of_le_of_lt h1 h2) (lt_irrefl n)⟩

theorem exists_unused_le_length (used : List Nat) :
    ∃ j, j ≤ used.length ∧ j ∉ used := by
  by_contra hc
  push_neg at hc
  have hsub : Finset.range (used.length + 1) ⊆ used.toFinset := by
    intro x hx
    rw [Finset.mem_range] at hx
    exact List.mem_toFinset.mpr (hc x (Nat.lt_succ_iff.mp hx))
  have h1 := Finset.card_le_card hsub
  rw [Finset.card_range] at h1
  have h2 := used.toFinset_card_le
  omega

/-- C4 (confirmed): `find_next_available_id` returns the smallest non-negative
integer not used as any record's `obj_id` — the result is unused, and every
smaller number is used.  Being a Lean function of the record list, it is
deterministic and pure by construction.  On a record set with ids
`{0, 1, 3}` it returns `2`. -/
theorem next_available_id_spec :
    (∀ data : List Record,
      find_next_available_id data ∉ data.map Record.obj_id ∧
      ∀ m, m < find_next_available_id data → m ∈ data.map Record.obj_id) ∧
    find_next_available_id
      [⟨0, "a", "g", 1⟩, ⟨1, "b", "g", 1⟩, ⟨3, "c", "g", 1⟩] = 2 := by
  constructor
  · intro data
    obtain ⟨j, hj, hfree⟩ := exists_unused_le_length (data.map Record.obj_id)
    have hlen : (data.map Record.obj_id).length = data.length := List.length_map _ _
    have hspec := firstFree_spec (data.map Record.obj_id) (data.length + 1) 0
      ⟨j, by omega, by simpa using hfree⟩
    exact ⟨hspec.1, fun m hm => hspec.2.2 m (Nat.zero_le m) hm⟩
  · with_unfolding_all decide

/-- Witness for `next_available_id_spec`, applying it at concrete inputs. -/
theorem next_available_id_spec_witness :
    find_next_available_id
      [⟨0, "a", "g", 1⟩, ⟨1, "b", "g", 1⟩, ⟨3, "c", "g", 1⟩] = 2 ∧
    find_next_available_id [⟨0, "a", "g", 1⟩] ∉
      [(⟨0, "a", "g", 1⟩ : Record)].map Record.obj_id :=
  ⟨next_available_id_spec.2, (next_available_id_spec.1 [⟨0, "a", "g", 1⟩]).1⟩

/-! ## C3: loading the manifest -/

/-- A file system in which every path holds an empty (zero-byte) file. -/
def emptyContentFiles : String → Option String := fun _ => some ""

/-- C3 (counterexample): the claim says a file that exists but is empty loads
as an empty sequence without error.  In the code, `json.load` raises on empty
contents (the empty string is not a JSON value), so `load_existing_json`
fails with the corrupt-manifest error. -/
theorem empty_manifest_file_is_error_ce :
    load_existing_json emptyContentFiles "objaverse_models.json" =
      .error .corrupt := rfl

/-- C3 (amended): a missing file loads as the empty sequence (not an error);
a present file loads as whatever its contents parse to, and any contents that
fail to parse as JSON — including the empty string — fail with
`CorruptManifest`.  An empty array file parses fine. -/
theorem load_manifest_spec :
    ∀ (files : String → Option String) (path : String),
      (files path = none → load_existing_json files path = .ok (.arr [])) ∧
      (∀ s, files path = some s →
        load_existing_json files path =
          (match json_loads s with
           | some v => Except.ok v
           | none => Except.error ManifestError.corrupt)) ∧
      json_loads "" = none ∧ json_loads "[]" = some (.arr []) := by
  intro files path
  refine ⟨?_, ?_, rfl, rfl⟩
  · intro h
    simp [load_existing_json, h]
  · intro s hs
    simp [load_existing_json, hs]

/-- Witness for `load_manifest_spec` at a concrete missing-file system. -/
theorem load_manifest_spec_witness :
    load_existing_json (fun _ => none) "m.json" = .ok (.arr []) :=
  (load_manifest_spec (fun _ => none) "m.json").1 rfl

/-! ## Anatomy of a run -/

/-- Whether an event is the unconditional final save. -/
def Event.isFinal : Event → Bool
  | .finalSave _ => true
  | _ => false

/-- Whether an event records a successful conversion. -/
def Event.isConverted : Event → Bool
  | .converted _ _ _ => true
  | _ => false

/-- Whether an event is an in-loop checkpoint save. -/
def Event.isCheckpoint : Event → Bool
  | .checkpoint _ _ => true
  | _ => false

/-- The loop index stamped on an event (`none` for the final save). -/
def Event.idx? : Event → Option Nat
  | .skipped i _ => some i
  | .failed i _ _ => some i
  | .converted i _ _ => some i
  | .checkpoint i _ => some i
  | .finalSave _ => none

/-- The `objaverse_id`s of a record list. -/
def oidsOf (recs : List Record) : List String := recs.map Record.objaverse_id

/-- The records held in the manifest store (empty when the file is absent). -/
def manifestRecords (fs : FS) : List Record := fs.manifest.getD []

theorem update_json_eq (env : Env) (dict : List (String × String))
    (base file : String) (fs : FS) :
    update_json env dict base file fs =
      updateLoop env base file (oidsOf (manifestRecords fs)) dict 0
        (manifestRecords fs) fs := rfl

theorem withEvents_eq_ok {es : List Event} {r : RunResult} {recs : List Record}
    {fs : FS} {tr : List Event} (h : r.withEvents es = .ok recs fs tr) :
    ∃ tr0, r = .ok recs fs tr0 ∧ tr = es ++ tr0 := by
  cases r with
  | ok a b c =>
      rw [RunResult.withEvents] at h
      injection h with h1 h2 h3
      exact ⟨c, by rw [h1, h2], h3.symm⟩
  | exc a b =>
      rw [RunResult.withEvents] at h
      exact absurd h (by simp)

/-- State shape of every completed run: the in-memory records only grow, the
final manifest store holds exactly the final records, directories only
accumulate, and the trace contains exactly one final-save event — the last
event — carrying the final records. -/
theorem updateLoop_ok_state (env : Env) (base file : String) (known : List String) :
    ∀ (reqs : List (String × String)) (idx : Nat) (recs : List Record) (fs : FS)
      (recs' : List Record) (fs' : FS) (tr : List Event),
      updateLoop env base file known reqs idx recs fs = .ok recs' fs' tr →
      (∃ t, recs' = recs ++ t) ∧
      fs'.manifest = some recs' ∧
      (∃ d, fs'.dirs = fs.dirs ++ d) ∧
      tr.filter Event.isFinal = [.finalSave recs'] ∧
      ∃ pre, tr = pre ++ [.finalSave recs'] := by
  intro reqs
  induction reqs with
  | nil =>
      intro idx recs fs recs' fs' tr h
      simp only [updateLoop] at h
      injection h with h1 h2 h3
      subst h1
      subst h2
      subst h3
      refine ⟨⟨[], by simp⟩, rfl, ⟨[pyDirname file], rfl⟩, ?_, ⟨[], by simp⟩⟩
      simp [Event.isFinal]
  | cons hd rest ih =>
      obtain ⟨oid, path⟩ := hd
      intro idx recs fs recs' fs' tr h
      simp only [updateLoop] at h
      by_cases hk : oid ∈ known
      · rw [if_pos hk] at h
        obtain ⟨tr0, hsub, rfl⟩ := withEvents_eq_ok h
        obtain ⟨hrec, hman, hdirs, hfilter, pre, hpre⟩ := ih _ _ _ _ _ _ hsub
        refine ⟨hrec, hman, hdirs, ?_, ⟨.skipped idx oid :: pre, by simp [hpre]⟩⟩
        simpa [Event.isFinal] using hfilter
      · rw [if_neg hk] at h
        cases hg : pyGithubId path with
        | none =>
            simp only [hg] at h
            exact absurd h (by simp)
        | some gid =>
            simp only [hg] at h
            cases hc : convert_glb_to_obj env path (objFilePath base gid oid) with
            | loadFail =>
                simp only [hc] at h
                obtain ⟨tr0, hsub, rfl⟩ := withEvents_eq_ok h
                obtain ⟨hrec, hman, ⟨d, hdirs⟩, hfilter, pre, hpre⟩ := ih _ _ _ _ _ _ hsub
                refine ⟨hrec, hman, ⟨[pyDirname (objFilePath base gid oid)] ++ d, ?_⟩, ?_,
                  ⟨.failed idx oid path :: pre, by simp [hpre]⟩⟩
                · rw [hdirs]; simp [mkdirs]
                · simpa [Event.isFinal] using hfilter
            | exportError w =>
                simp only [hc] at h
                exact absurd h (by simp)
            | success s w =>
                simp only [hc] at h
                by_cases hi : idx % 250 = 0
                · rw [if_pos hi] at h
                  obtain ⟨tr0, hsub, rfl⟩ := withEvents_eq_ok h
                  obtain ⟨⟨t, hrec⟩, hman, ⟨d, hdirs⟩, hfilter, pre, hpre⟩ := ih _ _ _ _ _ _ hsub
                  refine ⟨⟨⟨find_next_available_id recs, oid, gid, s⟩ :: t, by simpa using hrec⟩,
                    hman,
                    ⟨[pyDirname (objFilePath base gid oid), pyDirname file] ++ d, ?_⟩, ?_,
                    ⟨.converted idx oid s :: .checkpoint idx
                      (recs ++ [⟨find_next_available_id recs, oid, gid, s⟩]) :: pre,
                      by simp [hpre]⟩⟩
                  · rw [hdirs]; simp [mkdirs, saveRecords]
                  · simpa [Event.isFinal] using hfilter
                · rw [if_neg hi] at h
                  obtain ⟨tr0, hsub, rfl⟩ := withEvents_eq_ok h
                  obtain ⟨⟨t, hrec⟩, hman, ⟨d, hdirs⟩, hfilter, pre, hpre⟩ := ih _ _ _ _ _ _ hsub
                  refine ⟨⟨⟨find_next_available_id recs, oid, gid, s⟩ :: t, by simpa using hrec⟩,
                    hman,
                    ⟨[pyDirname (objFilePath base gid oid)] ++ d, ?_⟩, ?_,
                    ⟨.converted idx oid s :: pre, by simp [hpre]⟩⟩
                  · rw [hdirs]; simp [mkdirs]
                  · simpa [Event.isFinal] using hfilter

/-- Every index-stamped event emitted by the loop carries an index at least
the loop counter it started from. -/
theorem updateLoop_ok_idxGE (env : Env) (base file : String) (known : List String) :
    ∀ (reqs : List (String × String)) (idx : Nat) (recs : List Record) (fs : FS)
      (recs' : List Record) (fs' : FS) (tr : List Event),
      updateLoop env base file known reqs idx recs fs = .ok recs' fs' tr →
      ∀ e ∈ tr, ∀ i, e.idx? = some i → idx ≤ i := by
  intro reqs
  induction reqs with
  | nil =>
      intro idx recs fs recs' fs' tr h e he i hi
      simp only [updateLoop] at h
      injection h with h1 h2 h3
      subst h3
      simp at he
      subst he
      simp [Event.idx?] at hi
  | cons hd rest ih =>
      obtain ⟨oid, path⟩ := hd
      intro idx recs fs recs' fs' tr h e he i hi
      simp only [updateLoop] at h
      by_cases hk : oid ∈ known
      · rw [if_pos hk] at h
        obtain ⟨tr0, hsub, rfl⟩ := withEvents_eq_ok h
        rcases List.mem_cons.mp he with rfl | hmem
        · simp [Event.idx?] at hi
          omega
        · have := ih _ _ _ _ _ _ hsub e hmem i hi
          omega
      · rw [if_neg hk] at h
        cases hg : pyGithubId path with
        | none =>
            simp only [hg] at h
            exact absurd h (by simp)
        | some gid =>
            simp only [hg] at h
            cases hc : convert_glb_to_obj env path (objFilePath base gid oid) with
            | loadFail =>
                simp only [hc] at h
                obtain ⟨tr0, hsub, rfl⟩ := withEvents_eq_ok h
                rcases List.mem_cons.mp he with rfl | hmem
                · simp [Event.idx?] at hi
                  omega
                · have := ih _ _ _ _ _ _ hsub e hmem i hi
                  omega
            | exportError w =>
                simp only [hc] at h
                exact absurd h (by simp)
            | success s w =>
                simp only [hc] at h
                by_cases hmod : idx % 250 = 0
                · rw [if_pos hmod] at h
                  obtain ⟨tr0, hsub, rfl⟩ := withEvents_eq_ok h
                  rcases List.mem_cons.mp he with rfl | hmem
                  · simp [Event.idx?] at hi
                    omega
                  · rcases List.mem_cons.mp hmem with rfl | hmem2
                    · simp [Event.idx?] at hi
                      omega
                    · have := ih _ _ _ _ _ _ hsub e hmem2 i hi
                      omega
                · rw [if_neg hmod] at h
                  obtain ⟨tr0, hsub, rfl⟩ := withEvents_eq_ok h
                  rcases List.mem_cons.mp he with rfl | hmem
                  · simp [Event.idx?] at hi
                    omega
                  · have := ih _ _ _ _ _ _ hsub e hmem i hi
                    omega

/-- A checkpoint save happens at a loop index iff that index is a multiple of
250 and the item at that index was newly converted successfully. -/
theorem updateLoop_ok_checkpoint_iff (env : Env) (base file : String)
    (known : List String) :
    ∀ (reqs : List (String × String)) (idx : Nat) (recs : List Record) (fs : FS)
      (recs' : List Record) (fs' : FS) (tr : List Event),
      updateLoop env base file known reqs idx recs fs = .ok recs' fs' tr →
      ∀ i, (∃ rs, Event.checkpoint i rs ∈ tr) ↔
        (i % 250 = 0 ∧ ∃ oid0 s0, Event.converted i oid0 s0 ∈ tr) := by
  intro reqs
  induction reqs with
  | nil =>
      intro idx recs fs recs' fs' tr h i
      simp only [updateLoop] at h
      injection h with h1 h2 h3
      subst h3
      simp
  | cons hd rest ih =>
      obtain ⟨oid, path⟩ := hd
      intro idx recs fs recs' fs' tr h i
      simp only [updateLoop] at h
      by_cases hk : oid ∈ known
      · rw [if_pos hk] at h
        obtain ⟨tr0, hsub, rfl⟩ := withEvents_eq_ok h
        simpa using ih _ _ _ _ _ _ hsub i
      · rw [if_neg hk] at h
        cases hg : pyGithubId path with
        | none =>
            simp only [hg] at h
            exact absurd h (by simp)
        | some gid =>
            simp only [hg] at h
            cases hc : convert_glb_to_obj env path (objFilePath base gid oid) with
            | loadFail =>
                simp only [hc] at h
                obtain ⟨tr0, hsub, rfl⟩ := withEvents_eq_ok h
                simpa using ih _ _ _ _ _ _ hsub i
            | exportError w =>
                simp only [hc] at h
                exact absurd h (by simp)
            | success s w =>
                simp only [hc] at h
                by_cases hmod : idx % 250 = 0
                · rw [if_pos hmod] at h
                  obtain ⟨tr0, hsub, rfl⟩ := withEvents_eq_ok h
                  by_cases hii : i = idx
                  · subst hii
                    apply iff_of_true
                    · exact ⟨recs ++ [⟨find_next_available_id recs, oid, gid, s⟩],
                        List.mem_cons_of_mem _ (List.mem_cons_self _ _)⟩
                    · exact ⟨hmod, oid, s, List.mem_cons_self _ _⟩
                  · have hiff := ih _ _ _ _ _ _ hsub i
                    constructor
                    · rintro ⟨rs, hrs⟩
                      rcases List.mem_cons.mp hrs with heq | hmem
                      · exact absurd heq (by simp)
                      · rcases List.mem_cons.mp hmem with heq2 | hmem2
                        · injection heq2 with h1 h2
                          exact absurd h1 hii
                        · obtain ⟨hm, o0, s0, hmem3⟩ := hiff.mp ⟨rs, hmem2⟩
                          exact ⟨hm, o0, s0,
                            List.mem_cons_of_mem _ (List.mem_cons_of_mem _ hmem3)⟩
                    · rintro ⟨hm, o0, s0, hos⟩
                      rcases List.mem_cons.mp hos with heq | hmem
                      · injection heq with h1 h2 h3
                        exact absurd h1 hii
                      · rcases List.mem_cons.mp hmem with heq2 | hmem2
                        · exact absurd heq2 (by simp)
                        · obtain ⟨rs, hrs⟩ := hiff.mpr ⟨hm, o0, s0, hmem2⟩
                          exact ⟨rs,
                            List.mem_cons_of_mem _ (List.mem_cons_of_mem _ hrs)⟩
                · rw [if_neg hmod] at h
                  obtain ⟨tr0, hsub, rfl⟩ := withEvents_eq_ok h
                  by_cases hii : i = idx
                  · subst hii
                    apply iff_of_false
                    · rintro ⟨rs, hrs⟩
                      rcases List.mem_cons.mp hrs with heq | hmem
                      · exact absurd heq (by simp)
                      · have := updateLoop_ok_idxGE env base file known rest _ _ _ _ _ _
                          hsub _ hmem i rfl
                        omega
                    · rintro ⟨hm, _⟩
                      exact hmod hm
                  · have hiff := ih _ _ _ _ _ _ hsub i
                    constructor
                    · rintro ⟨rs, hrs⟩
                      rcases List.mem_cons.mp hrs with heq | hmem
                      · exact absurd heq (by simp)
                      · obtain ⟨hm, o0, s0, hmem3⟩ := hiff.mp ⟨rs, hmem⟩
                        exact ⟨hm, o0, s0, List.mem_cons_of_mem _ hmem3⟩
                    · rintro ⟨hm, o0, s0, hos⟩
                      rcases List.mem_cons.mp hos with heq | hmem
                      · injection heq with h1 h2 h3
                        exact absurd h1 hii
                      · obtain ⟨rs, hrs⟩ := hiff.mpr ⟨hm, o0, s0, hmem⟩
                        exact ⟨rs, List.mem_cons_of_mem _ hrs⟩

/-- The scale and mesh reported by a successful `convertMerged`. -/
theorem convertMerged_success {env : Env} {o : String} {m : Mesh} {s : ℚ} {w : Mesh}
    (h : convertMerged env o m = .success s w) :
    s = maxExtent m ∧ w = (normalizeMesh m).2 := by
  rw [convertMerged] at h
  split at h
  · injection h with h1 h2
    exact ⟨h1.symm.trans (normalizeMesh_fst m), h2.symm⟩
  · exact absurd h (by simp)

/-- A successful conversion always reports a non-negative scale (it is a
maximum bounding-box extent). -/
theorem convert_success_scale_nonneg {env : Env} {p o : String} {s : ℚ} {w : Mesh}
    (h : convert_glb_to_obj env p o = .success s w) : 0 ≤ s := by
  rw [convert_glb_to_obj] at h
  cases henv : env.load p with
  | failure =>
      simp only [henv] at h
      exact absurd h (by simp)
  | scene gs =>
      simp only [henv] at h
      split at h
      · obtain ⟨h1, _⟩ := convertMerged_success h
        rw [h1]
        exact maxExtent_nonneg _
      · exact absurd h (by simp)
  | single m =>
      simp only [henv] at h
      obtain ⟨h1, _⟩ := convertMerged_success h
      rw [h1]
      exact maxExtent_nonneg _

/-- If every record entering the loop has non-negative scale, so does every
record when the loop completes. -/
theorem updateLoop_ok_scales (env : Env) (base file : String) (known : List String) :
    ∀ (reqs : List (String × String)) (idx : Nat) (recs : List Record) (fs : FS)
      (recs' : List Record) (fs' : FS) (tr : List Event),
      updateLoop env base file known reqs idx recs fs = .ok recs' fs' tr →
      (∀ r ∈ recs, 0 ≤ r.norm_scale) → ∀ r ∈ recs', 0 ≤ r.norm_scale := by
  intro reqs
  induction reqs with
  | nil =>
      intro idx recs fs recs' fs' tr h h0
      simp only [updateLoop] at h
      injection h with h1 h2 h3
      subst h1
      exact h0
  | cons hd rest ih =>
      obtain ⟨oid, path⟩ := hd
      intro idx recs fs recs' fs' tr h h0
      simp only [updateLoop] at h
      by_cases hk : oid ∈ known
      · rw [if_pos hk] at h
        obtain ⟨tr0, hsub, rfl⟩ := withEvents_eq_ok h
        exact ih _ _ _ _ _ _ hsub h0
      · rw [if_neg hk] at h
        cases hg : pyGithubId path with
        | none =>
            simp only [hg] at h
            exact absurd h (by simp)
        | some gid =>
            simp only [hg] at h
            cases hc : convert_glb_to_obj env path (objFilePath base gid oid) with
            | loadFail =>
                simp only [hc] at h
                obtain ⟨tr0, hsub, rfl⟩ := withEvents_eq_ok h
                exact ih _ _ _ _ _ _ hsub h0
            | exportError w =>
                simp only [hc] at h
                exact absurd h (by simp)
            | success s w =>
                simp only [hc] at h
                have h0' : ∀ r ∈ recs ++ [(⟨find_next_available_id recs, oid, gid, s⟩ : Record)],
                    0 ≤ r.norm_scale := by
                  intro r hr
                  rcases List.mem_append.mp hr with hr1 | hr2
                  · exact h0 r hr1
                  · simp at hr2
                    subst hr2
                    exact convert_success_scale_nonneg hc
                by_cases hmod : idx % 250 = 0
                · rw [if_pos hmod] at h
                  obtain ⟨tr0, hsub, rfl⟩ := withEvents_eq_ok h
                  exact ih _ _ _ _ _ _ hsub h0'
                · rw [if_neg hmod] at h
                  obtain ⟨tr0, hsub, rfl⟩ := withEvents_eq_ok h
                  exact ih _ _ _ _ _ _ hsub h0'

/-- Every requested item of a completed run was either already known at loop
entry, or ended up recorded, or its conversion failed at the load stage. -/
theorem updateLoop_ok_item_status (env : Env) (base file : String) (known : List String) :
    ∀ (reqs : List (String × String)) (idx : Nat) (recs : List Record) (fs : FS)
      (recs' : List Record) (fs' : FS) (tr : List Event),
      updateLoop env base file known reqs idx recs fs = .ok recs' fs' tr →
      ∀ oid0 path0, (oid0, path0) ∈ reqs →
        oid0 ∈ known ∨ oid0 ∈ oidsOf recs' ∨
        ∃ g, pyGithubId path0 = some g ∧
          convert_glb_to_obj env path0 (objFilePath base g oid0) = .loadFail := by
  intro reqs
  induction reqs with
  | nil =>
      intro idx recs fs recs' fs' tr h oid0 path0 hmem
      exact absurd hmem (List.not_mem_nil _)
  | cons hd rest ih =>
      obtain ⟨oid, path⟩ := hd
      intro idx recs fs recs' fs' tr h oid0 path0 hmem
      simp only [updateLoop] at h
      by_cases hk : oid ∈ known
      · rw [if_pos hk] at h
        obtain ⟨tr0, hsub, rfl⟩ := withEvents_eq_ok h
        rcases List.mem_cons.mp hmem with heq | hmem2
        · injection heq with he1 he2
          subst he1
          exact Or.inl hk
        · exact ih _ _ _ _ _ _ hsub oid0 path0 hmem2
      · rw [if_neg hk] at h
        cases hg : pyGithubId path with
        | none =>
            simp only [hg] at h
            exact absurd h (by simp)
        | some gid =>
            simp only [hg] at h
            cases hc : convert_glb_to_obj env path (objFilePath base gid oid) with
            | loadFail =>
                simp only [hc] at h
                obtain ⟨tr0, hsub, rfl⟩ := withEvents_eq_ok h
                rcases List.mem_cons.mp hmem with heq | hmem2
                · injection heq with he1 he2
                  subst he1
                  subst he2
                  exact Or.inr (Or.inr ⟨gid, hg, hc⟩)
                · exact ih _ _ _ _ _ _ hsub oid0 path0 hmem2
            | exportError w =>
                simp only [hc] at h
                exact absurd h (by simp)
            | success s w =>
                simp only [hc] at h
                have hrecorded :
                    ∀ {recs2 : List Record} {fs2 : FS} {recs'2 : List Record}
                      {fs'2 : FS} {tr2 : List Event},
                      updateLoop env base file known rest (idx + 1) recs2 fs2 =
                        .ok recs'2 fs'2 tr2 →
                      (⟨find_next_available_id recs, oid, gid, s⟩ : Record) ∈ recs2 →
                      oid ∈ oidsOf recs'2 := by
                  intro recs2 fs2 recs'2 fs'2 tr2 hsub hin
                  obtain ⟨⟨t, hrec⟩, _⟩ := updateLoop_ok_state env base file known
                    rest _ _ _ _ _ _ hsub
                  have : (⟨find_next_available_id recs, oid, gid, s⟩ : Record) ∈ recs'2 := by
                    rw [hrec]
                    exact List.mem_append_left _ hin
                  simpa [oidsOf] using
                    ⟨⟨find_next_available_id recs, oid, gid, s⟩, this, rfl⟩
                by_cases hmod : idx % 250 = 0
                · rw [if_pos hmod] at h
                  obtain ⟨tr0, hsub, rfl⟩ := withEvents_eq_ok h
                  rcases List.mem_cons.mp hmem with heq | hmem2
                  · injection heq with he1 he2
                    subst he1
                    exact Or.inr (Or.inl (hrecorded hsub (by simp)))
                  · exact ih _ _ _ _ _ _ hsub oid0 path0 hmem2
                · rw [if_neg hmod] at h
                  obtain ⟨tr0, hsub, rfl⟩ := withEvents_eq_ok h
                  rcases List.mem_cons.mp hmem with heq | hmem2
                  · injection heq with he1 he2
                    subst he1
                    exact Or.inr (Or.inl (hrecorded hsub (by simp)))
                  · exact ih _ _ _ _ _ _ hsub oid0 path0 hmem2

/-- A run in which every requested item is either already known or fails at
the load stage completes with the records unchanged: nothing is converted,
every failure report concerns an unknown id, and every known requested id is
skipped. -/
theorem updateLoop_skip_run (env : Env) (base file : String) (known : List String) :
    ∀ (reqs : List (String × String)) (idx : Nat) (recs : List Record) (fs : FS),
      (∀ p ∈ reqs, p.1 ∈ known ∨
        ∃ g, pyGithubId p.2 = some g ∧
          convert_glb_to_obj env p.2 (objFilePath base g p.1) = .loadFail) →
      ∃ fs' tr, updateLoop env base file known reqs idx recs fs = .ok recs fs' tr ∧
        fs'.manifest = some recs ∧
        (∀ e ∈ tr, Event.isConverted e = false) ∧
        (∀ i oid0 p0, Event.failed i oid0 p0 ∈ tr → oid0 ∉ known) ∧
        (∀ p ∈ reqs, p.1 ∈ known → ∃ i, Event.skipped i p.1 ∈ tr) := by
  intro reqs
  induction reqs with
  | nil =>
      intro idx recs fs hyp
      refine ⟨saveRecords file recs fs, [.finalSave recs], by simp [updateLoop],
        by simp [saveRecords], ?_, ?_, by simp⟩
      · intro e he
        simp at he
        subst he
        rfl
      · intro i oid0 p0 hmem
        simp at hmem
  | cons hd rest ih =>
      obtain ⟨oid, path⟩ := hd
      intro idx recs fs hyp
      have hyptail : ∀ p ∈ rest, p.1 ∈ known ∨
          ∃ g, pyGithubId p.2 = some g ∧
            convert_glb_to_obj env p.2 (objFilePath base g p.1) = .loadFail :=
        fun p hp => hyp p (List.mem_cons_of_mem _ hp)
      by_cases hk : oid ∈ known
      · obtain ⟨fs', tr, hrun, hman, hconv, hfail, hskip⟩ := ih (idx + 1) recs fs hyptail
        refine ⟨fs', .skipped idx oid :: tr, ?_, hman, ?_, ?_, ?_⟩
        · simp only [updateLoop]
          rw [if_pos hk, hrun]
          rfl
        · intro e he
          rcases List.mem_cons.mp he with rfl | hmem
          · rfl
          · exact hconv e hmem
        · intro i oid0 p0 hmem
          rcases List.mem_cons.mp hmem with heq | hmem2
          · exact absurd heq (by simp)
          · exact hfail i oid0 p0 hmem2
        · intro p hp hpk
          rcases List.mem_cons.mp hp with rfl | hmem2
          · exact ⟨idx, List.mem_cons_self _ _⟩
          · obtain ⟨i, hi⟩ := hskip p hmem2 hpk
            exact ⟨i, List.mem_cons_of_mem _ hi⟩
      · rcases hyp (oid, path) (List.mem_cons_self _ _) with hinK | ⟨g, hg, hc⟩
        · exact absurd hinK hk
        · obtain ⟨fs', tr, hrun, hman, hconv, hfail, hskip⟩ :=
            ih (idx + 1) recs (mkdirs (pyDirname (objFilePath base g oid)) fs) hyptail
          refine ⟨fs', .failed idx oid path :: tr, ?_, hman, ?_, ?_, ?_⟩
          · simp only [updateLoop]
            rw [if_neg hk]
            simp only [hg, hc]
            rw [hrun]
            rfl
          · intro e he
            rcases List.mem_cons.mp he with rfl | hmem
            · rfl
            · exact hconv e hmem
          · intro i oid0 p0 hmem
            rcases List.mem_cons.mp hmem with heq | hmem2
            · injection heq with h1 h2 h3
              subst h2
              exact hk
            · exact hfail i oid0 p0 hmem2
          · intro p hp hpk
            rcases List.mem_cons.mp hp with rfl | hmem2
            · exact absurd hpk hk
            · obtain ⟨i, hi⟩ := hskip p hmem2 hpk
              exact ⟨i, List.mem_cons_of_mem _ hi⟩

/-- The output directory passed to `os.makedirs` for a processed item is
present in the final directory list of a completed run. -/
theorem updateLoop_ok_dirs (env : Env) (base file : String) (known : List String) :
    ∀ (reqs : List (String × String)) (idx : Nat) (recs : List Record) (fs : FS)
      (recs' : List Record) (fs' : FS) (tr : List Event),
      updateLoop env base file known reqs idx recs fs = .ok recs' fs' tr →
      ∀ oid0 path0, (oid0, path0) ∈ reqs → oid0 ∉ known →
        ∃ g, pyGithubId path0 = some g ∧
          pyDirname (objFilePath base g oid0) ∈ fs'.dirs := by
  intro reqs
  induction reqs with
  | nil =>
      intro idx recs fs recs' fs' tr h oid0 path0 hmem
      exact absurd hmem (List.not_mem_nil _)
  | cons hd rest ih =>
      obtain ⟨oid, path⟩ := hd
      intro idx recs fs recs' fs' tr h oid0 path0 hmem hnk
      simp only [updateLoop] at h
      by_cases hk : oid ∈ known
      · rw [if_pos hk] at h
        obtain ⟨tr0, hsub, rfl⟩ := withEvents_eq_ok h
        rcases List.mem_cons.mp hmem with heq | hmem2
        · injection heq with he1 he2
          subst he1
          exact absurd hk hnk
        · exact ih _ _ _ _ _ _ hsub oid0 path0 hmem2 hnk
      · rw [if_neg hk] at h
        cases hg : pyGithubId path with
        | none =>
            simp only [hg] at h
            exact absurd h (by simp)
        | some gid =>
            simp only [hg] at h
            cases hc : convert_glb_to_obj env path (objFilePath base gid oid) with
            | loadFail =>
                simp only [hc] at h
                obtain ⟨tr0, hsub, rfl⟩ := withEvents_eq_ok h
                obtain ⟨_, _, ⟨dd, hdd⟩, _⟩ :=
                  updateLoop_ok_state env base file known rest _ _ _ _ _ _ hsub
                rcases List.mem_cons.mp hmem with heq | hmem2
                · injection heq with he1 he2
                  subst he1
                  subst he2
                  refine ⟨gid, hg, ?_⟩
                  rw [hdd]
                  simp [mkdirs]
                · exact ih _ _ _ _ _ _ hsub oid0 path0 hmem2 hnk
            | exportError w =>
                simp only [hc] at h
                exact absurd h (by simp)
            | success s w =>
                simp only [hc] at h
                by_cases hmod : idx % 250 = 0
                · rw [if_pos hmod] at h
                  obtain ⟨tr0, hsub, rfl⟩ := withEvents_eq_ok h
                  obtain ⟨_, _, ⟨dd, hdd⟩, _⟩ :=
                    updateLoop_ok_state env base file known rest _ _ _ _ _ _ hsub
                  rcases List.mem_cons.mp hmem with heq | hmem2
                  · injection heq with he1 he2
                    subst he1
                    subst he2
                    refine ⟨gid, hg, ?_⟩
                    rw [hdd]
                    simp [saveRecords, mkdirs]
                  · exact ih _ _ _ _ _ _ hsub oid0 path0 hmem2 hnk
                · rw [if_neg hmod] at h
                  obtain ⟨tr0, hsub, rfl⟩ := withEvents_eq_ok h
                  obtain ⟨_, _, ⟨dd, hdd⟩, _⟩ :=
                    updateLoop_ok_state env base file known rest _ _ _ _ _ _ hsub
                  rcases List.mem_cons.mp hmem with heq | hmem2
                  · injection heq with he1 he2
                    subst he1
                    subst he2
                    refine ⟨gid, hg, ?_⟩
                    rw [hdd]
                    simp [mkdirs]
                  · exact ih _ _ _ _ _ _ hsub oid0 path0 hmem2 hnk

/-! ## C7: unconditional final save -/

/-- C7 (confirmed): every run that completes its request loop — including one
with zero requests or where every item failed or was skipped — performs the
final save exactly once, as its last action, and the durable manifest then
holds exactly the final in-memory record list. -/
theorem final_save_unconditional (env : Env) (reqs : List (String × String))
    (base file : String) (fs : FS) {recs' : List Record} {fs' : FS} {tr : List Event}
    (h : update_json env reqs base file fs = .ok recs' fs' tr) :
    fs'.manifest = some recs' ∧
    tr.filter Event.isFinal = [.finalSave recs'] ∧
    ∃ pre, tr = pre ++ [.finalSave recs'] := by
  rw [update_json_eq] at h
  obtain ⟨_, hman, _, hfilter, hpre⟩ :=
    updateLoop_ok_state _ _ _ _ _ _ _ _ _ _ _ h
  exact ⟨hman, hfilter, hpre⟩

/-- Witness for `final_save_unconditional`: a zero-request run. -/
theorem final_save_unconditional_witness :
    (⟨some [], ["f"]⟩ : FS).manifest = some [] ∧
    [Event.finalSave []].filter Event.isFinal = [.finalSave []] ∧
    ∃ pre, [Event.finalSave []] = pre ++ [Event.finalSave []] :=
  final_save_unconditional loadFailEnv [] "base" "f/m.json" emptyFS
    (by with_unfolding_all decide)

/-! ## C6: checkpoint timing -/

/-- C6 (counterexample): the claim says a checkpoint save occurs at every
loop position that is a multiple of the interval, regardless of the item's
outcome.  Here the single item sits at index 0 (a multiple of 250) and fails
to load: the run completes with no checkpoint event at all — only the
unconditional final save. -/
theorem checkpoint_requires_success_ce :
    update_json loadFailEnv [("id", "g/h/a.glb")] "base" "f/m.json" emptyFS =
      .ok [] ⟨some [], ["base/objs/h/id", "f"]⟩
        [.failed 0 "id" "g/h/a.glb", .finalSave []] ∧
    (0 : Nat) % 250 = 0 ∧
    ([Event.failed 0 "id" "g/h/a.glb", Event.finalSave []].all
      (fun e => !e.isCheckpoint)) = true := by
  exact ⟨by with_unfolding_all decide, rfl, by decide⟩

/-- C6 (amended): in a completed run, a checkpoint save occurs at loop index
`i` iff `i` is a multiple of 250 *and* the item at index `i` was newly
converted successfully.  Skipped and failed items advance the index (it
counts all requested items) but never themselves trigger a save. -/
theorem checkpoint_iff_index_and_success (env : Env) (reqs : List (String × String))
    (base file : String) (fs : FS) {recs' : List Record} {fs' : FS} {tr : List Event}
    (h : update_json env reqs base file fs = .ok recs' fs' tr) :
    ∀ i, (∃ rs, Event.checkpoint i rs ∈ tr) ↔
      (i % 250 = 0 ∧ ∃ oid s, Event.converted i oid s ∈ tr) := by
  rw [update_json_eq] at h
  exact updateLoop_ok_checkpoint_iff _ _ _ _ _ _ _ _ _ _ _ h

/-- Witness for `checkpoint_iff_index_and_success` on a concrete run that
does checkpoint (successful conversion at index 0). -/
theorem checkpoint_iff_index_and_success_witness :
    (∃ rs, Event.checkpoint 0 rs ∈
      [Event.converted 0 "id" 0, Event.checkpoint 0 [⟨0, "id", "h", 0⟩],
       Event.finalSave [⟨0, "id", "h", 0⟩]]) ↔
    ((0 : Nat) % 250 = 0 ∧ ∃ oid s, Event.converted 0 oid s ∈
      [Event.converted 0 "id" 0, Event.checkpoint 0 [⟨0, "id", "h", 0⟩],
       Event.finalSave [⟨0, "id", "h", 0⟩]]) :=
  checkpoint_iff_index_and_success degEnv [("id", "g/h/a.glb")] "base" "f/m.json"
    emptyFS
    (show update_json degEnv [("id", "g/h/a.glb")] "base" "f/m.json" emptyFS =
        .ok [⟨0, "id", "h", 0⟩]
          ⟨some [⟨0, "id", "h", 0⟩], ["base/objs/h/id", "f", "f"]⟩
          [.converted 0 "id" 0, .checkpoint 0 [⟨0, "id", "h", 0⟩],
           .finalSave [⟨0, "id", "h", 0⟩]] from by with_unfolding_all decide)
    0

/-! ## C2: recorded scales -/

/-- C2 (counterexample): the claim says every manifest record has
`normalization_scale > 0` and that zero-extent meshes never give rise to a
record.  Converting the zero-extent `degMesh` succeeds with scale 0, and the
run records it: the manifest gains a record whose `norm_scale` is 0, not
positive. -/
theorem record_zero_scale_ce :
    update_json degEnv [("id", "g/h/a.glb")] "base" "f/m.json" emptyFS =
      .ok [⟨0, "id", "h", 0⟩]
        ⟨some [⟨0, "id", "h", 0⟩], ["base/objs/h/id", "f", "f"]⟩
        [.converted 0 "id" 0, .checkpoint 0 [⟨0, "id", "h", 0⟩],
         .finalSave [⟨0, "id", "h", 0⟩]] ∧
    ¬ (0 : ℚ) < (⟨0, "id", "h", 0⟩ : Record).norm_scale ∧
    maxExtent degMesh = 0 := by
  exact ⟨by with_unfolding_all decide, by with_unfolding_all decide,
    by with_unfolding_all decide⟩

/-- C2 (amended): every record present after a completed run has
`normalization_scale ≥ 0`, provided the records loaded at run start do
(freshly created records carry a maximum bounding-box extent, which is
non-negative but can be zero for degenerate meshes). -/
theorem record_scale_nonneg (env : Env) (reqs : List (String × String))
    (base file : String) (fs : FS) {recs' : List Record} {fs' : FS} {tr : List Event}
    (h : update_json env reqs base file fs = .ok recs' fs' tr)
    (h0 : ∀ r ∈ manifestRecords fs, 0 ≤ r.norm_scale) :
    ∀ r ∈ recs', 0 ≤ r.norm_scale := by
  rw [update_json_eq] at h
  exact updateLoop_ok_scales _ _ _ _ _ _ _ _ _ _ _ h h0

/-- Witness for `record_scale_nonneg` at the record of the degenerate-mesh run. -/
theorem record_scale_nonneg_witness :
    (0 : ℚ) ≤ (⟨0, "id", "h", 0⟩ : Record).norm_scale :=
  record_scale_nonneg degEnv [("id", "g/h/a.glb")] "base" "f/m.json" emptyFS
    (show update_json degEnv [("id", "g/h/a.glb")] "base" "f/m.json" emptyFS =
        .ok [⟨0, "id", "h", 0⟩]
          ⟨some [⟨0, "id", "h", 0⟩], ["base/objs/h/id", "f", "f"]⟩
          [.converted 0 "id" 0, .checkpoint 0 [⟨0, "id", "h", 0⟩],
           .finalSave [⟨0, "id", "h", 0⟩]] from by with_unfolding_all decide)
    (by intro r hr; simp [manifestRecords, emptyFS] at hr)
    ⟨0, "id", "h", 0⟩ (List.mem_cons_self _ _)

/-! ## C5: idempotent re-run -/

/-- C5 (confirmed): if a run with some requests completes, re-running with
the identical requests completes with the *same* record list (hence the same
record set by `source_id`), leaves the durable manifest unchanged, skips
every requested id recorded after the first run, converts nothing, and every
failure report of the second run concerns an id that is not recorded. -/
theorem idempotent_rerun (env : Env) (reqs : List (String × String))
    (base file : String) (fs : FS) {recs1 : List Record} {fs1 : FS} {tr1 : List Event}
    (h1 : update_json env reqs base file fs = .ok recs1 fs1 tr1) :
    ∃ fs2 tr2, update_json env reqs base file fs1 = .ok recs1 fs2 tr2 ∧
      fs2.manifest = fs1.manifest ∧
      (∀ oid path, (oid, path) ∈ reqs → oid ∈ oidsOf recs1 →
        ∃ i, Event.skipped i oid ∈ tr2) ∧
      (∀ e ∈ tr2, Event.isConverted e = false) ∧
      (∀ i oid p, Event.failed i oid p ∈ tr2 → oid ∉ oidsOf recs1) := by
  have h1' := h1
  rw [update_json_eq] at h1'
  obtain ⟨⟨t, hgrow⟩, hman1, _⟩ := updateLoop_ok_state _ _ _ _ _ _ _ _ _ _ _ h1'
  have hmr1 : manifestRecords fs1 = recs1 := by simp [manifestRecords, hman1]
  have hknownsub : ∀ x, x ∈ oidsOf (manifestRecords fs) → x ∈ oidsOf recs1 := by
    intro x hx
    rw [hgrow]
    simp only [oidsOf, List.map_append]
    exact List.mem_append_left _ hx
  have hyp : ∀ p ∈ reqs, p.1 ∈ oidsOf recs1 ∨
      ∃ g, pyGithubId p.2 = some g ∧
        convert_glb_to_obj env p.2 (objFilePath base g p.1) = .loadFail := by
    intro p hp
    obtain ⟨oid0, path0⟩ := p
    rcases updateLoop_ok_item_status _ _ _ _ _ _ _ _ _ _ _ h1' oid0 path0 hp with
      hA | hB | hC
    · exact Or.inl (hknownsub _ hA)
    · exact Or.inl hB
    · exact Or.inr hC
  obtain ⟨fs2, tr2, hrun2, hman2, hconv2, hfail2, hskip2⟩ :=
    updateLoop_skip_run env base file (oidsOf recs1) reqs 0 recs1 fs1 hyp
  refine ⟨fs2, tr2, ?_, ?_, ?_, hconv2, hfail2⟩
  · rw [update_json_eq, hmr1]
    exact hrun2
  · rw [hman2, hman1]
  · intro oid path hp hin
    exact hskip2 (oid, path) hp hin

/-- Witness for `idempotent_rerun`: rerunning the degenerate-mesh conversion
against the manifest its first run produced. -/
theorem idempotent_rerun_witness :
    ∃ fs2 tr2,
      update_json degEnv [("id", "g/h/a.glb")] "base" "f/m.json"
        ⟨some [⟨0, "id", "h", 0⟩], ["base/objs/h/id", "f", "f"]⟩ =
        .ok [⟨0, "id", "h", 0⟩] fs2 tr2 ∧
      fs2.manifest =
        (⟨some [⟨0, "id", "h", 0⟩], ["base/objs/h/id", "f", "f"]⟩ : FS).manifest ∧
      (∀ oid path, (oid, path) ∈ [("id", "g/h/a.glb")] →
        oid ∈ oidsOf [⟨0, "id", "h", 0⟩] → ∃ i, Event.skipped i oid ∈ tr2) ∧
      (∀ e ∈ tr2, Event.isConverted e = false) ∧
      (∀ i oid p, Event.failed i oid p ∈ tr2 → oid ∉ oidsOf [⟨0, "id", "h", 0⟩]) :=
  idempotent_rerun degEnv [("id", "g/h/a.glb")] "base" "f/m.json" emptyFS
    (show update_json degEnv [("id", "g/h/a.glb")] "base" "f/m.json" emptyFS =
        .ok [⟨0, "id", "h", 0⟩]
          ⟨some [⟨0, "id", "h", 0⟩], ["base/objs/h/id", "f", "f"]⟩
          [.converted 0 "id" 0, .checkpoint 0 [⟨0, "id", "h", 0⟩],
           .finalSave [⟨0, "id", "h", 0⟩]] from by with_unfolding_all decide)

/-! ## C1: export failure -/

/-- C1 (counterexample): the claim says an export failure is reported, adds
no record, and never propagates past its iteration, the batch continuing.
Here the first item's export raises: the whole run aborts as an uncaught
exception with an empty trace — the second request is never processed, no
final save happens, and the manifest store is never written. -/
theorem export_failure_aborts_batch_ce :
    update_json exportFailEnv [("id", "g/h/a.glb"), ("id2", "g/h/b.glb")]
      "base" "f/m.json" emptyFS = .exc ⟨none, ["base/objs/h/id"]⟩ [] ∧
    (⟨none, ["base/objs/h/id"]⟩ : FS).manifest = none := by
  exact ⟨by with_unfolding_all decide, rfl⟩

/-- C1 (amended): a failure of the *load* step is per-item recoverable (the
item is reported and the run continues to the final save with no record
added), but a failure of the *export* step is not: the exception escapes
`convert_glb_to_obj` and aborts the whole batch at that iteration — no
record is added, no further requests run, and no save of any kind happens
(the durable manifest is left as it was). -/
theorem export_failure_not_recoverable (env : Env) (base file : String) (fs : FS)
    (oid path g : String) (rest : List (String × String))
    (hnew : oid ∉ oidsOf (manifestRecords fs))
    (hg : pyGithubId path = some g) :
    (∀ m, convert_glb_to_obj env path (objFilePath base g oid) = .exportError m →
      update_json env ((oid, path) :: rest) base file fs =
        .exc (mkdirs (pyDirname (objFilePath base g oid)) fs) []) ∧
    (convert_glb_to_obj env path (objFilePath base g oid) = .loadFail →
      update_json env [(oid, path)] base file fs =
        .ok (manifestRecords fs)
          (saveRecords file (manifestRecords fs)
            (mkdirs (pyDirname (objFilePath base g oid)) fs))
          [.failed 0 oid path, .finalSave (manifestRecords fs)]) := by
  constructor
  · intro m hc
    rw [update_json_eq]
    simp only [updateLoop]
    rw [if_neg hnew]
    simp only [hg, hc]
  · intro hc
    rw [update_json_eq]
    simp only [updateLoop]
    rw [if_neg hnew]
    simp only [hg, hc]
    rfl

/-- Witness for `export_failure_not_recoverable`: the concrete failing-export
environment. -/
theorem export_failure_not_recoverable_witness :
    update_json exportFailEnv [("id", "g/h/a.glb")] "base" "f/m.json" emptyFS =
      .exc (mkdirs (pyDirname (objFilePath "base" "h" "id")) emptyFS) [] :=
  (export_failure_not_recoverable exportFailEnv "base" "f/m.json" emptyFS
      "id" "g/h/a.glb" "h" [] (by with_unfolding_all decide) (by decide)).1
    ⟨[((-1 : ℚ)/3, (-1 : ℚ)/6, 0), ((2 : ℚ)/3, (-1 : ℚ)/6, 0),
      ((-1 : ℚ)/3, (1 : ℚ)/3, 0)], [(0, 1, 2)]⟩
    (by with_unfolding_all decide)

/-! ## C10: output directory creation -/

/-- C10 (confirmed): in a completed run, for every requested id not already
in the manifest, the per-asset output directory — `os.path.dirname` of the
output file path `join(base, "objs", github_id, source_id,
"model_scaled.obj")` — was handed to `os.makedirs` and is present on disk at
the end, whether or not the conversion of that asset succeeded (failed items
create it too, before `convert_glb_to_obj` runs). -/
theorem output_dir_created (env : Env) (reqs : List (String × String))
    (base file : String) (fs : FS) {recs' : List Record} {fs' : FS} {tr : List Event}
    (h : update_json env reqs base file fs = .ok recs' fs' tr) :
    ∀ oid path, (oid, path) ∈ reqs → oid ∉ oidsOf (manifestRecords fs) →
      ∃ g, pyGithubId path = some g ∧
        pyDirname (objFilePath base g oid) ∈ fs'.dirs := by
  rw [update_json_eq] at h
  exact fun oid path hmem hnk =>
    updateLoop_ok_dirs _ _ _ _ _ _ _ _ _ _ _ h oid path hmem hnk

/-- Witness for `output_dir_created`: the load of the only item fails, no
record is added, yet its output directory `base/objs/h/id` exists. -/
theorem output_dir_created_witness :
    (∃ g, pyGithubId "g/h/a.glb" = some g ∧
      pyDirname (objFilePath "base" g "id") ∈
        (⟨some [], ["base/objs/h/id", "f"]⟩ : FS).dirs) ∧
    pyDirname (objFilePath "base" "h" "id") = "base/objs/h/id" :=
  ⟨output_dir_created loadFailEnv [("id", "g/h/a.glb")] "base" "f/m.json" emptyFS
      (show update_json loadFailEnv [("id", "g/h/a.glb")] "base" "f/m.json" emptyFS =
          .ok [] ⟨some [], ["base/objs/h/id", "f"]⟩
            [.failed 0 "id" "g/h/a.glb", .finalSave []] from by with_unfolding_all decide)
      "id" "g/h/a.glb" (by decide) (by decide),
   by decide⟩

end Objaverse
